import Mathlib

/-!
Verification development for the transplacer asset cache and the mak
conditional/range serving engine.

The Go sources are embedded shallowly: pure Go functions become Lean
functions over `List Char` / `String` / `List Nat` (bytes), stateful code
becomes explicit state passing, and external collaborators (the filesystem,
the HTML parser, the gzip/xxhash libraries, `http.ParseTime`,
`http.DetectContentType`) become explicit function parameters bundled in
environment records.  Machine integers are modelled as `Int`.
-/

/-! ## Go string helpers (strings / textproto) -/

/-- Characters trimmed by Go's `strings.TrimSpace` (ASCII subset of
Unicode White_Space; header values in the claims are ASCII). -/
def isGoSpace (c : Char) : Bool :=
  c = ' ' || c = '\t' || c = '\n' || c = (Char.ofNat 11) || c = (Char.ofNat 12) || c = '\r'

/-- `strings.TrimSpace` over a character list. -/
def goTrimSpaceL (l : List Char) : List Char :=
  ((l.dropWhile isGoSpace).reverse.dropWhile isGoSpace).reverse

/-- `textproto.TrimString`: trims only ASCII space and horizontal tab. -/
def isTPSpace (c : Char) : Bool := c = ' ' || c = '\t'

/-- `textproto.TrimString` over a character list. -/
def tpTrimL (l : List Char) : List Char :=
  ((l.dropWhile isTPSpace).reverse.dropWhile isTPSpace).reverse

/-- Whether the first list is an initial segment of the second
(`strings.HasPrefix sub` direction: `listStarts sub s`). -/
def listStarts : List Char → List Char → Bool
  | [], _ => true
  | _ :: _, [] => false
  | a :: as_, b :: bs => a = b && listStarts as_ bs

/-- `strings.HasPrefix s pre`. -/
def goStartsWith (s pre : String) : Bool :=
  listStarts pre.toList s.toList

/-- Substring containment over lists (`strings.Contains` core). -/
def listContainsSub (sub : List Char) : List Char → Bool
  | [] => listStarts sub []
  | c :: rest => listStarts sub (c :: rest) || listContainsSub sub rest

/-- `strings.Contains s sub`. -/
def goContains (s sub : String) : Bool :=
  listContainsSub sub.toList s.toList

/-- `strings.Split` with a one-character separator (the only use in the
embedded code is splitting on `","`).  Never returns an empty list. -/
def splitOnChar (sep : Char) : List Char → List (List Char)
  | [] => [[]]
  | c :: rest =>
    match splitOnChar sep rest with
    | [] => [[]]
    | h :: t => if c = sep then [] :: h :: t else (c :: h) :: t

/-- ASCII lower-casing of one character (`strings.ToLower` restricted to
ASCII, which covers every extension and attribute the code compares). -/
def lowerChar (c : Char) : Char :=
  if 'A' ≤ c ∧ c ≤ 'Z' then Char.ofNat (c.toNat + 32) else c

/-- `strings.ToLower` (ASCII). -/
def goToLower (s : String) : String :=
  (s.toList.map lowerChar).asString

/-- `strings.TrimPrefix a "W/"` as used by `eTagWeakMatch`. -/
def trimWeakMarker (l : List Char) : List Char :=
  match l with
  | 'W' :: '/' :: rest => rest
  | l => l

/-- Digit-string value; `none` when empty or a non-digit occurs. -/
def digitsVal : List Char → Option Nat
  | [] => none
  | [c] => if c.isDigit then some (c.toNat - '0'.toNat) else none
  | c :: rest =>
    if c.isDigit then
      (digitsVal rest).map (fun n => (c.toNat - '0'.toNat) * 10 ^ rest.length + n)
    else none

/-- `strconv.ParseInt(s, 10, 64)`: optional sign, decimal digits, and the
int64 range check. -/
def goParseIntL (l : List Char) : Option Int :=
  match l with
  | '+' :: rest =>
    (digitsVal rest).bind (fun n => if (n : Int) ≤ 2 ^ 63 - 1 then some (n : Int) else none)
  | '-' :: rest =>
    (digitsVal rest).bind (fun n => if (n : Int) ≤ 2 ^ 63 then some (-(n : Int)) else none)
  | rest =>
    (digitsVal rest).bind (fun n => if (n : Int) ≤ 2 ^ 63 - 1 then some (n : Int) else none)

/-! ## Go path helpers (path / filepath, Unix separators) -/

/-- Element-wise form of Go's `path.Clean`: split on `/`, drop empty and
`.` elements, resolve `..` (popping inside the path, kept at the front of a
relative path, dropped at the root of a rooted path), then rejoin.  This is
the standard specification of the lazybuf algorithm in `path.Clean`. -/
def cleanSegs (rooted : Bool) (segs : List (List Char)) : List (List Char) :=
  segs.foldl
    (fun acc s =>
      if s = [] ∨ s = ['.'] then acc
      else if s = ['.', '.'] then
        if rooted then acc.dropLast
        else
          match acc.getLast? with
          | some l => if l = ['.', '.'] then acc ++ [s] else acc.dropLast
          | none => acc ++ [s]
      else acc ++ [s])
    []

/-- Rejoin path elements with `/`. -/
def joinSegs : List (List Char) → List Char
  | [] => []
  | [s] => s
  | s :: rest => s ++ '/' :: joinSegs rest

/-- Go `path.Clean`. -/
def goPathClean (p : String) : String :=
  if p = "" then "." else
  let chars := p.toList
  let rooted := chars.head? = some '/'
  let out := cleanSegs rooted (splitOnChar '/' chars)
  if out = [] then (if rooted then "/" else ".")
  else ((if rooted then ['/'] else []) ++ joinSegs out).asString

/-- Go `filepath.Join` on two elements (Unix): empty elements are skipped,
the rest are joined with `/` and cleaned. -/
def goJoin (a b : String) : String :=
  if a = "" ∧ b = "" then ""
  else if a = "" then goPathClean b
  else if b = "" then goPathClean a
  else goPathClean (a ++ "/" ++ b)

/-- Core of `filepath.Ext`: walk the path from the end; a `/` means no
extension, the first `.` starts the extension. -/
def goExtCore (seen : List Char) : List Char → String
  | [] => ""
  | c :: rest =>
    if c = '/' then ""
    else if c = '.' then ('.' :: seen).asString
    else goExtCore (c :: seen) rest

/-- Go `filepath.Ext` (Unix). -/
def goExt (p : String) : String :=
  goExtCore [] p.toList.reverse

/-- Go `path.IsAbs`. -/
def pathIsAbs (p : String) : Bool :=
  p.toList.head? = some '/'

/-! ## transplacer: configuration lists and helpers (transplacer.go) -/

/-- `Compressable` — list of compressable file types (transplacer.go). -/
def Compressable : List String :=
  ["", ".txt", ".htm", ".html", ".css", ".toml", ".php", ".js", ".json", ".md",
   ".mdown", ".xml", ".svg", ".go", ".cgi", ".py", ".pl", ".aspx", ".asp"]

/-- `AvoidPushing` — file extensions skipped when building an HTTP/2 push
list (transplacer.go). -/
def AvoidPushing : List String :=
  ["", ".png", ".webp", ".txt"]

/-- `StringsContainCI` — case-insensitive membership (transplacer.go). -/
def StringsContainCI (list : List String) (m : String) : Bool :=
  let m := goToLower m
  list.any (fun item => goToLower item = m)

/-- `PrepPath` — joins a host path with a clean file path
(transplacer.go, current version): clean; join onto the host directory
unless already prefixed by it; a trailing separator resolves to
`index.html`; a missing extension gets `.html` appended. -/
def PrepPath (host file : String) : String :=
  let f := goPathClean file
  let f := if ¬ goStartsWith f host then goJoin host f else f
  if f.toList.getLast? = some '/' then goJoin f "index.html"
  else if goExt f = "" then f ++ ".html"
  else f

/-! ## transplacer: push-target extractor (queryPushables) -/

/-- HTML tree as produced by the external parser `golang.org/x/net/html`:
element nodes with tag, attributes and children; every other node kind
(document, text, comment, doctype) only contributes its children to the
walk, exactly as in `queryPushables`' recursion. -/
inductive HNode where
  | elem (tag : String) (attrs : List (String × String)) (children : List HNode)
  | other (children : List HNode)
deriving Repr

/-- The `LinkLoop` of `queryPushables`: scan a `<link>`'s attributes;
`rel` equal (case-insensitively) to `preload` or `icon` marks the
candidate excluded and breaks; `href` records the target and breaks once
`rel` has been checked.  Returns `(avoid, target)`. -/
def linkLoopAux (relChecked : Bool) (target : String) :
    List (String × String) → Bool × String
  | [] => (false, target)
  | (k, v) :: rest =>
    if goToLower k = "rel" then
      if goToLower v = "preload" ∨ goToLower v = "icon" then (true, target)
      else linkLoopAux true target rest
    else if goToLower k = "href" then
      if relChecked then (false, v) else linkLoopAux relChecked v rest
    else linkLoopAux relChecked target rest

/-- The `ImgScriptLoop` of `queryPushables`: first `src` attribute. -/
def srcLoop : List (String × String) → String
  | [] => ""
  | (k, v) :: rest => if goToLower k = "src" then v else srcLoop rest

mutual

/-- The tree walk of `queryPushables` (transplacer.go, current version):
for each element compute `(avoid, target)` from the tag-specific attribute
loop, additionally exclude targets whose `filepath.Ext` is on
`AvoidPushing`, and keep a non-excluded absolute-path target; then recurse
into the children, preserving document order. -/
def queryPushables : HNode → List String
  | .elem tag attrs children =>
    let p :=
      if tag = "link" then linkLoopAux false "" attrs
      else if tag = "img" ∨ tag = "script" then (false, srcLoop attrs)
      else (false, "")
    let avoid := p.1 || AvoidPushing.any (fun np => goExt p.2 = np)
    (if ¬ avoid ∧ pathIsAbs p.2 then [p.2] else []) ++ queryPushablesList children
  | .other children => queryPushablesList children

/-- Children traversal of `queryPushables`. -/
def queryPushablesList : List HNode → List String
  | [] => []
  | n :: rest => queryPushables n ++ queryPushablesList rest

end

/-! ## transplacer: Asset, AssetCache store and Gen/Get/Del/sweep -/

/-- `Asset` (transplacer.go, current version).  Byte content is a
`List Nat`; times are `Int`. -/
structure Asset where
  ext : String
  name : String
  contentType : String
  loaded : Int
  modTime : Int
  content : List Nat
  contentCompressed : Option (List Nat)
  cacheControl : String
  etag : String
  etagCompressed : String
  compressed : Bool
  pushList : List String
deriving DecidableEq, Repr

/-- The concurrent map `AssetCache.Cache`, modelled as an association list
with unique keys (maintained by `cacheSet`). -/
abbrev AssetMap := List (String × Asset)

/-- `Cache.GetStringKey`. -/
def cacheLookup (k : String) (c : AssetMap) : Option Asset :=
  (List.find? (fun kv => kv.1 = k) c).map (fun kv => kv.2)

/-- `Cache.Del k` (hashmap delete: removes the key). -/
def cacheDel (k : String) (c : AssetMap) : AssetMap :=
  List.filter (fun kv => ¬ kv.1 = k) c

/-- `Cache.Set k v` (hashmap set: replaces any existing entry for `k`). -/
def cacheSet (k : String) (v : Asset) (c : AssetMap) : AssetMap :=
  (k, v) :: cacheDel k c

/-- `os.Stat` result for a path that exists: the parts of `os.FileInfo`
that `Gen` consumes.  `content` is what reading the file yields. -/
structure FileInfo where
  isDir : Bool
  modTime : Int
  name : String
  content : List Nat
deriving DecidableEq, Repr

/-- Environment of `AssetCache.Gen`: the filesystem and the external
libraries it calls.  `stat p = none` models an `os.Stat` error;
`openErr`/`readErr` model `os.Open`/`ioutil.ReadFile` failures;
`hashCopyErr` models a read failure while hashing the open file handle;
`gzip lvl` models `gzipBytes (· , lvl)` (`none` = error); `digest` models
the xxhash-base64-hex digest string; `mime` models
`mime.TypeByExtension`; `parseHTML` models `html.Parse` (`none` = parse
error); `cc` is the cache's `CacheControl`; `now` is `time.Now()`. -/
structure GenEnv where
  stat : String → Option FileInfo
  openErr : String → Bool
  readErr : String → Bool
  hashCopyErr : String → Bool
  gzip : Int → List Nat → Option (List Nat)
  digest : List Nat → String
  mime : String → String
  parseHTML : List Nat → Option HNode
  cc : String
  now : Int

/-- Error taxonomy of `Gen`: the I/O failure points, plus `fuelOut`, which
models the (unbounded) `<dir>/index.html` recursion running out of the
explicit recursion budget — it never occurs for the finite directory
nestings considered here. -/
inductive GenErr where
  | statErr
  | openErr
  | readErr
  | gzipErr
  | hashErr
  | fuelOut
deriving DecidableEq, Repr

/-- Result of `Gen`: the returned `*Asset` (`none` on error), the cache
after the call, and the returned error. -/
structure GenOut where
  asset : Option Asset
  cache : AssetMap
  err : Option GenErr
deriving DecidableEq

/-- `AssetCache.Gen` (transplacer.go, current version): prep the path,
stat it (directories recurse onto `index.html`), open and read the file,
derive content type and compressibility, gzip at level 9 with its own
quoted digest ETag when compressible, hash the uncompressed bytes into the
plain quoted ETag, extract the push list for `.html`, and only then insert
the finished Asset into the store.  Every error path returns before the
insertion. -/
def Gen (env : GenEnv) (dir : String) : Nat → String → AssetMap → GenOut
  | 0, _, cache => ⟨none, cache, some .fuelOut⟩
  | fuel + 1, name, cache =>
    let name := PrepPath dir name
    match env.stat name with
    | none => ⟨none, cache, some .statErr⟩
    | some fi =>
      if fi.isDir then Gen env dir fuel (goJoin name "index.html") cache
      else if env.openErr name then ⟨none, cache, some .openErr⟩
      else if env.readErr name then ⟨none, cache, some .readErr⟩
      else
        let content := fi.content
        let ext := goExt name
        let isCompressed := StringsContainCI Compressable ext
        let base : Asset :=
          { ext := ext, name := fi.name, contentType := env.mime ext,
            loaded := env.now, modTime := fi.modTime, content := content,
            contentCompressed := none, cacheControl := env.cc,
            etag := "", etagCompressed := "", compressed := isCompressed,
            pushList := [] }
        let step :=
          if isCompressed then
            match env.gzip 9 content with
            | none => Sum.inl GenErr.gzipErr
            | some gz =>
              Sum.inr { base with
                contentCompressed := some gz,
                etagCompressed := "\"" ++ env.digest gz ++ "\"" }
          else Sum.inr base
        match step with
        | Sum.inl e => ⟨none, cache, some e⟩
        | Sum.inr a1 =>
          if env.hashCopyErr name then ⟨none, cache, some .hashErr⟩
          else
            let a2 := { a1 with etag := "\"" ++ env.digest content ++ "\"" }
            let a3 :=
              if ext = ".html" then
                match env.parseHTML content with
                | some tree => { a2 with pushList := queryPushables tree }
                | none => a2
              else a2
            ⟨some a3, cacheSet name a3 cache, none⟩

/-- Result of `AssetCache.Get`: the asset, the cache afterwards, and the
`found` Boolean that Go returns (`err == nil && asset != nil`). -/
structure GetOut where
  asset : Option Asset
  cache : AssetMap
  found : Bool
deriving DecidableEq

/-- `AssetCache.Get` (transplacer.go, current version): prep the path,
return a cached entry when present, otherwise generate synchronously. -/
def Get (env : GenEnv) (dir : String) (fuel : Nat) (cache : AssetMap)
    (name : String) : GetOut :=
  let name := PrepPath dir name
  match cacheLookup name cache with
  | some a => ⟨some a, cache, true⟩
  | none =>
    let g := Gen env dir fuel name cache
    ⟨g.asset, g.cache, g.asset.isSome && g.err = none⟩

/-- One tick of the background expiry sweeper
(`SetExpiryCheckInterval`'s goroutine, transplacer.go current version):
iterate all entries and delete each whose `Loaded.Add(Expire)` is before
`now`.  Cached keys are `PrepPath` fixed points, so the `Del` inside the
loop removes exactly the iterated key. -/
def sweepTick (now expire : Int) (cache : AssetMap) : AssetMap :=
  cache.foldl
    (fun c kv => if kv.2.loaded + expire < now then cacheDel kv.1 c else c)
    cache

/-! ## transplacer: Asset.Serve header selection -/

/-- What `Asset.Serve` decides before delegating the byte streaming to
`http.ServeContent`: the headers it sets and the representation it hands
over.  `cc0`/`sts0` are the response's pre-existing `Cache-Control` and
`Strict-Transport-Security` headers ("" = unset). -/
structure ServeOut where
  contentType : String
  cacheControl : String
  sts : String
  etagHeader : String
  contentEncoding : Option String
  vary : Option String
  served : List Nat
  compressedSelected : Bool
deriving DecidableEq, Repr

/-- `Asset.Serve` (transplacer.go, current version), modulo the HTTP/2
push side effect and the `Loaded` refresh: chooses the gzip representation
(compressed ETag, `Content-Encoding: gzip`, `Vary`) exactly when the asset
is compressed and the request's `Accept-Encoding` contains `gzip`. -/
def serveAsset (as_ : Asset) (acceptEncoding : String) (tls : Bool)
    (cc0 sts0 : String) : ServeOut :=
  let cc := if cc0 = "" then as_.cacheControl else cc0
  let sts := if tls ∧ sts0 = "" then "max-age=31536000" else sts0
  if as_.compressed && goContains acceptEncoding "gzip" then
    { contentType := as_.contentType, cacheControl := cc, sts := sts,
      etagHeader := as_.etagCompressed, contentEncoding := some "gzip",
      vary := some "accept-encoding",
      served := as_.contentCompressed.getD [], compressedSelected := true }
  else
    { contentType := as_.contentType, cacheControl := cc, sts := sts,
      etagHeader := as_.etag, contentEncoding := none, vary := none,
      served := as_.content, compressedSelected := false }

/-! ## mak serving engine: ETag scanning and matching (part_004) -/

/-- Scanner loop of `scanETag`: inside the opening quote, accept the ETag
character set (0x21, 0x23–0x7E, ≥ 0x80), close on `"`, reject anything
else.  `acc` holds the characters consumed so far (marker and opening
quote included). -/
def scanETagAux (acc : List Char) : List Char → Option (List Char × List Char)
  | [] => none
  | c :: rest =>
    if c = '"' then some (acc ++ ['"'], rest)
    else if c.toNat = 0x21 ∨ (0x23 ≤ c.toNat ∧ c.toNat ≤ 0x7E) ∨ 0x80 ≤ c.toNat then
      scanETagAux (acc ++ [c]) rest
    else none

/-- `scanETag` (part_004): trim, skip an optional `W/` marker, require an
opening quote with at least one following character, scan to the closing
quote.  Returns the ETag (marker and quotes included) and the remaining
text, or `([], [])`. -/
def scanETag (s : List Char) : List Char × List Char :=
  let s := tpTrimL s
  let start := if listStarts ['W', '/'] s then 2 else 0
  let rest := s.drop start
  match rest with
  | '"' :: tail =>
    if tail = [] then ([], [])
    else
      match scanETagAux ((s.take start) ++ ['"']) tail with
      | some r => r
      | none => ([], [])
  | _ => ([], [])

/-- `eTagStrongMatch` (part_004): equality of non-empty, non-weak tags. -/
def eTagStrongMatch (a b : List Char) : Bool :=
  a = b && ¬ a = [] && a.head? = some '"'

/-- `eTagWeakMatch` (part_004): equality after stripping a `W/` marker. -/
def eTagWeakMatch (a b : List Char) : Bool :=
  trimWeakMarker a = trimWeakMarker b

/-- The `If-Match` evaluation loop of `Ctx.WriteContent` (part_004):
returns `matched`.  A `*` matches; otherwise scan comma-separated ETags
and strong-match each against the current response ETag; a scan failure
or the end of the header breaks with no match.  `fuel` bounds the loop;
`length + 1` always suffices because every iteration consumes at least one
character. -/
def ifMatchLoop (et : List Char) : Nat → List Char → Bool
  | 0, _ => false
  | fuel + 1, im =>
    let im := tpTrimL im
    match im with
    | [] => false
    | c :: rest =>
      if c = ',' then ifMatchLoop et fuel rest
      else if c = '*' then true
      else
        let s := scanETag (c :: rest)
        if s.1 = [] then false
        else if eTagStrongMatch s.1 et then true
        else ifMatchLoop et fuel s.2

/-- The `If-None-Match` evaluation loop of `Ctx.WriteContent` (part_004):
returns `noneMatched`.  Note the source strips one leading comma without
re-trimming (and would index out of bounds on a header that is a lone
comma; that case is modelled as breaking the loop). -/
def ifNoneMatchLoop (et : List Char) : Nat → List Char → Bool
  | 0, _ => true
  | fuel + 1, inm =>
    let inm := tpTrimL inm
    match inm with
    | [] => true
    | c :: rest =>
      let inm := if c = ',' then rest else c :: rest
      match inm with
      | [] => true
      | c :: rest =>
        if c = '*' then false
        else
          let s := scanETag (c :: rest)
          if s.1 = [] then true
          else if eTagWeakMatch s.1 et then false
          else ifNoneMatchLoop et fuel s.2

/-! ## mak serving engine: Range header parsing (part_004) -/

/-- `httpRange` (part_004). -/
structure HttpRange where
  start : Int
  length : Int
deriving DecidableEq, Repr

/-- `httpRange.contentRange` (part_004): `bytes start-end/size`. -/
def contentRangeStr (r : HttpRange) (size : Int) : String :=
  "bytes " ++ toString r.start ++ "-" ++ toString (r.start + r.length - 1)
    ++ "/" ++ toString size

/-- First index of `-` in a specifier (`strings.Index(ra, "-")`). -/
def dashIndex : List Char → Option Nat
  | [] => none
  | c :: rest =>
    if c = '-' then some 0 else (dashIndex rest).map (· + 1)

/-- Outcome of parsing one `start-end` specifier in the Range loop of
`Ctx.WriteContent`: malformed (`ErrBadRange`), empty (skipped silently),
dropped (`start >= size`, sets `noOverlap`), or a parsed range. -/
inductive SpecRes where
  | bad
  | empty
  | dropped
  | got (r : HttpRange)
deriving DecidableEq, Repr

/-- One iteration of the Range parsing loop of `Ctx.WriteContent`
(part_004): trim; skip empty; require a dash; a missing start means a
suffix range of the last `end` bytes (clamped to `size`); an explicit
start must be a non-negative integer, is dropped when at or beyond
`size`, and is otherwise paired with an open or explicit end (end clamped
to `size - 1`, and `start > end` is malformed). -/
def parseSpec (size : Int) (ra : List Char) : SpecRes :=
  let ra := goTrimSpaceL ra
  if ra = [] then .empty
  else
    match dashIndex ra with
    | none => .bad
    | some i =>
      let startS := goTrimSpaceL (ra.take i)
      let endS := goTrimSpaceL (ra.drop (i + 1))
      if startS = [] then
        match goParseIntL endS with
        | none => .bad
        | some n =>
          let n := if n > size then size else n
          .got ⟨size - n, size - (size - n)⟩
      else
        match goParseIntL startS with
        | none => .bad
        | some i0 =>
          if i0 < 0 then .bad
          else if i0 ≥ size then .dropped
          else if endS = [] then .got ⟨i0, size - i0⟩
          else
            match goParseIntL endS with
            | none => .bad
            | some j0 =>
              if i0 > j0 then .bad
              else
                let j := if j0 ≥ size then size - 1 else j0
                .got ⟨i0, j - i0 + 1⟩

/-- Result of the whole Range parsing loop. -/
inductive RangeParse where
  | err
  | ok (ranges : List HttpRange) (noOverlap : Bool)
deriving DecidableEq, Repr

/-- The Range parsing loop of `Ctx.WriteContent` over the comma-separated
specifiers, accumulating parsed ranges in order and the `noOverlap`
flag. -/
def parseRangesAux (size : Int) : List (List Char) → List HttpRange → Bool → RangeParse
  | [], acc, ov => .ok acc ov
  | ra :: rest, acc, ov =>
    match parseSpec size ra with
    | .bad => .err
    | .empty => parseRangesAux size rest acc ov
    | .dropped => parseRangesAux size rest acc true
    | .got hr => parseRangesAux size rest (acc ++ [hr]) ov

/-- Parse the part of a `Range` header after `bytes=`. -/
def parseRanges (size : Int) (specs : List Char) : RangeParse :=
  parseRangesAux size (splitOnChar ',' specs) [] false

/-! ## mak serving engine: Ctx.WriteContent (part_004) -/

/-- `Err` (errors.go): mak's standard error type. -/
structure Err where
  code : Int
  value : String
deriving DecidableEq, Repr

/-- `ErrBadRange` (errors.go). -/
def ErrBadRange : Err := ⟨416, "unsatisfiable range"⟩

/-- `ErrPreConditionFail` (errors.go). -/
def ErrPreConditionFail : Err := ⟨412, "precondition failed"⟩

/-- The request data `Ctx.WriteContent` reads: method, the conditional and
range headers (an empty string models an absent header), the request's
`accept-ranges` header (read — from the request — by the deferred writer),
and whether the connection is TLS. -/
structure WReq where
  method : String
  ifMatch : String
  ifUnmodifiedSince : String
  ifNoneMatch : String
  ifModifiedSince : String
  range : String
  ifRange : String
  acceptRanges : String
  tls : Bool
deriving DecidableEq, Repr

/-- The response-side state of `Ctx` that `WriteContent` reads and
mutates: the numeric status and `ContentLength` fields, the headers it
touches (`none` models an unset header), and the `Written` flag. -/
structure RespState where
  status : Int
  contentLength : Int
  etag : String
  lastModified : String
  contentType : Option String
  contentLengthHeader : Option String
  transferEncoding : Option String
  contentRange : Option String
  acceptRangesH : Option String
  sts : Option String
  written : Bool
deriving DecidableEq, Repr

/-- External collaborators of `WriteContent`: `http.ParseTime` (`none`
models a parse failure or the zero time), `http.DetectContentType`, and
the sizes the `multipart.Writer` contributes (boundary string and total
part-header overhead), which depend on the writer's random boundary. -/
structure WEnv where
  parseTime : String → Option Int
  detect : List Nat → String
  boundary : String
  mpOverhead : Int

/-- Go's zero `time.Time` as Unix seconds (year 1); a failed
`http.ParseTime` yields it and it takes part in comparisons. -/
def goZeroTime : Int := -62135596800

/-- Value of a parsed time, the zero time when parsing failed. -/
def tval (o : Option Int) : Int := o.getD goZeroTime

/-- What the engine streams after the headers. -/
inductive Body where
  | empty
  | bytes (bs : List Nat)
  | multipart (ranges : List HttpRange)
deriving DecidableEq, Repr

/-- The reader variable of `WriteContent`: nil, the content (at a seek
position), or the multipart pipe. -/
inductive RdKind where
  | nil
  | content (pos : Int)
  | pipe (ranges : List HttpRange)
deriving DecidableEq, Repr

/-- Full outcome of a `WriteContent` call: final response state, the body
bytes actually copied to the transport, and the returned error. -/
structure WCOut where
  state : RespState
  body : Body
  err : Option Err
deriving DecidableEq, Repr

/-- The deferred writer of `Ctx.WriteContent` (part_004), which runs on
every non-error exit (`canWrite`): set `Strict-Transport-Security` on TLS;
when a reader exists, advertise `accept-ranges` for 2xx (the source
checks the request header map here) and, when the reader is the original
content and `ContentLength` is zero, measure the content by seeking (which
rewinds the position to 0); emit a `content-length` header unless
suppressed, else zero the count; finally write the status line and copy
`ContentLength` bytes from the reader unless the method is HEAD. -/
def deferredWrite (req : WReq) (bytes : Option (List Nat)) (rk : RdKind)
    (s : RespState) : RespState × Body :=
  let s := if req.tls ∧ s.sts = none then { s with sts := some "max-age=31536000" } else s
  let sp :=
    match rk with
    | .nil => (s, RdKind.nil)
    | rk =>
      let s :=
        if 200 ≤ s.status ∧ s.status < 300 ∧ req.acceptRanges = "" then
          { s with acceptRangesH := some "bytes" }
        else s
      match rk, bytes with
      | .content _, some bs =>
        if s.contentLength = 0 then ({ s with contentLength := (bs.length : Int) }, .content 0)
        else (s, rk)
      | rk, _ => (s, rk)
  let s := sp.1
  let rk := sp.2
  let s :=
    if 0 ≤ s.contentLength ∧ s.contentLengthHeader = none ∧ s.transferEncoding = none ∧
        200 ≤ s.status ∧ ¬ s.status = 204 ∧ (300 ≤ s.status ∨ ¬ req.method = "CONNECT") then
      { s with contentLengthHeader := some (toString s.contentLength) }
    else { s with contentLength := 0 }
  let body : Body :=
    if req.method = "HEAD" then .empty
    else
      match rk, bytes with
      | .content pos, some bs => .bytes ((bs.drop pos.toNat).take s.contentLength.toNat)
      | .pipe ras, _ => .multipart ras
      | _, _ => .empty
  ({ s with written := true }, body)

/-- Result of the precondition/conditional phase of `WriteContent`:
either a finished outcome or the state in which the range phase starts. -/
inductive CondRes where
  | out (o : WCOut)
  | go (s : RespState) (bs : List Nat)
deriving DecidableEq, Repr

/-- Lines 484–640 of `Ctx.WriteContent` (part_004): the `Written` and
`Status >= 400` early exits, `If-Match` / `If-Unmodified-Since`
(412 via `ErrPreConditionFail`), `If-None-Match` / `If-Modified-Since`
(304 for GET/HEAD, 412 otherwise; 304 deletes the `Content-Type` and
`content-length` headers), and the nil-content exit. -/
def condPhase (env : WEnv) (req : WReq) (s0 : RespState)
    (content : Option (List Nat)) : CondRes :=
  if s0.written then .out ⟨s0, .empty, none⟩
  else if 400 ≤ s0.status then
    let rk : RdKind := match content with | some _ => .content 0 | none => .nil
    let d := deferredWrite req content rk s0
    .out ⟨d.1, d.2, none⟩
  else
    let et := s0.etag.toList
    let ius := env.parseTime req.ifUnmodifiedSince
    let lm := env.parseTime s0.lastModified
    let s1 :=
      if ¬ req.ifMatch = "" then
        if ifMatchLoop et (req.ifMatch.length + 1) req.ifMatch.toList then s0
        else { s0 with status := 412 }
      else if ius.isSome ∧ ¬ tval lm < tval ius + 1 then { s0 with status := 412 }
      else s0
    let ims := env.parseTime req.ifModifiedSince
    let s2 :=
      if ¬ req.ifNoneMatch = "" then
        if ifNoneMatchLoop et (req.ifNoneMatch.length + 1) req.ifNoneMatch.toList then s1
        else if req.method = "GET" ∨ req.method = "HEAD" then { s1 with status := 304 }
        else { s1 with status := 412 }
      else if ims.isSome ∧ tval lm < tval ims + 1 then { s1 with status := 304 }
      else s1
    if 300 ≤ s2.status ∧ s2.status < 400 then
      let s3 :=
        if s2.status = 304 then { s2 with contentType := none, contentLengthHeader := none }
        else s2
      let rk : RdKind := match content with | some _ => .content 0 | none => .nil
      let d := deferredWrite req content rk s3
      .out ⟨d.1, d.2, none⟩
    else if s2.status = 412 then .out ⟨s2, .empty, some ErrPreConditionFail⟩
    else
      match content with
      | none =>
        let d := deferredWrite req none .nil s2
        .out ⟨d.1, d.2, none⟩
      | some bs => .go s2 bs

/-- Lines 642–851 of `Ctx.WriteContent` (part_004): content-type
detection, size measurement, the `If-Range` guard (note the source checks
the date branch even after a strong ETag match), `bytes=` validation, the
range parsing loop, the 416 exit when every range was dropped, the
discard-all-ranges fallback when the ranges oversubscribe the size, and
the single-range (206 + `content-range`) and multipart (206 + pipe)
responses, each finishing through the deferred writer. -/
def rangePhase (env : WEnv) (req : WReq) (s2 : RespState) (bs : List Nat) : WCOut :=
  let s3 :=
    match s2.contentType with
    | some _ => s2
    | none => { s2 with contentType := some (env.detect bs) }
  let size : Int := bs.length
  let s4 := { s3 with contentLength := size }
  let lm := env.parseTime s2.lastModified
  let et := s2.etag.toList
  if req.range = "" then
    let d := deferredWrite req (some bs) (.content 0) s4
    ⟨d.1, d.2, none⟩
  else
    let bypass :=
      if (req.method = "GET" ∨ req.method = "HEAD") ∧ ¬ req.ifRange = "" then
        let tag := (scanETag req.ifRange.toList).1
        if ¬ tag = [] ∧ ¬ eTagStrongMatch tag et then true
        else if lm.isNone then true
        else if ¬ tval (env.parseTime req.ifRange) = tval lm then true
        else false
      else false
    if bypass then
      let d := deferredWrite req (some bs) (.content 0) s4
      ⟨d.1, d.2, none⟩
    else if ¬ goStartsWith req.range "bytes=" then
      ⟨{ s4 with status := 416 }, .empty, some ErrBadRange⟩
    else
      match parseRanges size (req.range.toList.drop 6) with
      | .err => ⟨{ s4 with status := 416 }, .empty, some ErrBadRange⟩
      | .ok ranges ov =>
        if ov ∧ ranges = [] then
          let s5 := { s4 with
            status := 416,
            contentRange := some ("bytes */" ++ toString size) }
          ⟨s5, .empty, some ErrBadRange⟩
        else
          let rangesSize := ranges.foldl (fun n r => n + r.length) 0
          let ranges := if rangesSize > size then [] else ranges
          match ranges with
          | [ra] =>
            let s5 := { s4 with
              contentLength := ra.length,
              status := 206,
              contentRange := some (contentRangeStr ra size) }
            let d := deferredWrite req (some bs) (.content ra.start) s5
            ⟨d.1, d.2, none⟩
          | [] =>
            let d := deferredWrite req (some bs) (.content 0) s4
            ⟨d.1, d.2, none⟩
          | ras =>
            let s5 := { s4 with
              contentLength := s4.contentLength
                + ras.foldl (fun n r => n + r.length) 0 + env.mpOverhead,
              status := 206,
              contentType := some ("multipart/byteranges; boundary=" ++ env.boundary) }
            let d := deferredWrite req (some bs) (.pipe ras) s5
            ⟨d.1, d.2, none⟩

/-- `Ctx.WriteContent` (part_004): the conditional phase followed, when
content remains to be ranged, by the range phase. -/
def writeContent (env : WEnv) (req : WReq) (s0 : RespState)
    (content : Option (List Nat)) : WCOut :=
  match condPhase env req s0 content with
  | .out o => o
  | .go s2 bs => rangePhase env req s2 bs

/-- The state of a `Ctx` as `Instance.ServeHTTP` builds it for a bodyless
request whose handler has set the response validators: status 200, zero
`ContentLength`, and only the `etag` / `last-modified` / `Content-Type`
headers populated. -/
def freshCtx (etag lastModified : String) (ct : Option String) : RespState :=
  { status := 200, contentLength := 0, etag := etag,
    lastModified := lastModified, contentType := ct,
    contentLengthHeader := none, transferEncoding := none,
    contentRange := none, acceptRangesH := none, sts := none,
    written := false }

/-- The dropping condition of the Range parsing loop, on one raw
specifier: its trimmed form contains a dash preceded by a non-empty
explicit start that parses to a non-negative integer at or beyond `size`.
`Ctx.WriteContent` skips such a specifier (setting `noOverlap`) instead of
rejecting the request. -/
def specStartsBeyond (size : Int) (ra : List Char) : Bool :=
  let t := goTrimSpaceL ra
  match dashIndex t with
  | none => false
  | some i =>
    let startS := goTrimSpaceL (t.take i)
    match goParseIntL startS with
    | none => false
    | some n => decide (¬ startS = [] ∧ 0 ≤ n ∧ size ≤ n)

/-! ## Concrete instances used by witnesses and counterexamples -/

/-- The tree `golang.org/x/net/html.Parse` produces (no parse error) for
`<html><head><link rel="stylesheet" href="/s.css"><link rel="preload"
href="/p.js"></head><body><img src="/a.png"></body></html>`: a document
node holding the `html` element with its `head` and `body`. -/
def exampleTree : HNode :=
  .other [ .elem "html" [] [
    .elem "head" [] [
      .elem "link" [("rel", "stylesheet"), ("href", "/s.css")] [],
      .elem "link" [("rel", "preload"), ("href", "/p.js")] [] ],
    .elem "body" [] [
      .elem "img" [("src", "/a.png")] [] ] ] ]

/-- A stored asset loaded at time 0. -/
def asset1 : Asset :=
  { ext := ".html", name := "x.html", contentType := "text/html",
    loaded := 0, modTime := 0, content := [1], contentCompressed := none,
    cacheControl := "private, must-revalidate", etag := "\"e1\"",
    etagCompressed := "", compressed := false, pushList := [] }

/-- A stored asset loaded at time 50. -/
def asset2 : Asset := { asset1 with loaded := 50, etag := "\"e2\"" }

/-- A two-entry cache with distinct keys. -/
def cache1 : AssetMap := [("k1", asset1), ("k2", asset2)]

/-- The directory entry of the concrete filesystem. -/
def fiDir : FileInfo := { isDir := true, modTime := 0, name := "a", content := [] }

/-- The `index.html` file of the concrete filesystem. -/
def fiIdx : FileInfo := { isDir := false, modTime := 5, name := "index.html", content := [7, 8] }

/-- A `.css` file of the concrete filesystem. -/
def fiCss : FileInfo := { isDir := false, modTime := 6, name := "x.css", content := [1, 2, 3] }

/-- A concrete generation environment: the cache root `/a` holds
`index.html` and `x.css`; gzip appends a marker byte; the digest is the
byte count rendered as a string. -/
def genvFS : GenEnv :=
  { stat := fun p =>
      if p = "/a" then some fiDir
      else if p = "/a/index.html" then some fiIdx
      else if p = "/a/x.css" then some fiCss
      else none,
    openErr := fun _ => false,
    readErr := fun _ => false,
    hashCopyErr := fun _ => false,
    gzip := fun _ c => some (c ++ [0]),
    digest := fun c => toString c.length,
    mime := fun e => if e = ".html" then "text/html" else if e = ".css" then "text/css" else "",
    parseHTML := fun _ => none,
    cc := "private, must-revalidate",
    now := 100 }

/-- A concrete serving-engine environment: `http.ParseTime` succeeds only
on the literal `"LM"`. -/
def wEnvC : WEnv :=
  { parseTime := fun s => if s = "LM" then some 1000 else none,
    detect := fun _ => "application/octet-stream",
    boundary := "b",
    mpOverhead := 0 }

/-- A bare GET request with no conditional headers. -/
def reqBase : WReq :=
  { method := "GET",
    ifMatch := "",
    ifUnmodifiedSince := "",
    ifNoneMatch := "",
    ifModifiedSince := "",
    range := "",
    ifRange := "",
    acceptRanges := "",
    tls := false }

/-- GET carrying a failing `If-Match` and a matching `If-None-Match`. -/
def reqImInm : WReq := { reqBase with ifMatch := "\"x\"", ifNoneMatch := "\"y\"" }

/-- GET carrying a matching `If-Match`. -/
def reqImOk : WReq := { reqBase with ifMatch := "\"y\"" }

/-- GET whose `If-None-Match` matches the stored ETag. -/
def reqInm : WReq := { reqBase with ifNoneMatch := "\"t\"" }

/-- GET with `Range: bytes=0-0` guarded by a strong-matching `If-Range`. -/
def reqIfRange : WReq := { reqBase with range := "bytes=0-0", ifRange := "\"g\"" }

/-- GET with a `Range` whose every specifier starts at or beyond size 3. -/
def reqDropAll : WReq := { reqBase with range := "bytes=5-9, 7-" }

/-- GET with individually valid ranges oversubscribing a size-5 body. -/
def reqOver : WReq := { reqBase with range := "bytes=0-4,0-4" }

/-! ## Theorems -/

/-- **C9.** For the HTML input
`<html><head><link rel="stylesheet" href="/s.css"><link rel="preload"
href="/p.js"></head><body><img src="/a.png"></body></html>` with the
default push-skip extension list `AvoidPushing = ["", ".png", ".webp",
".txt"]`, the push-target extractor returns exactly `["/s.css"]`: the
`rel="preload"` link and the `.png` image are excluded, and only absolute
paths surviving the deny-list are kept, in document order. -/
theorem queryPushables_example : queryPushables exampleTree = ["/s.css"] := by
  decide


/-- Membership in `cacheDel`. -/
theorem mem_cacheDel {k k0 : String} {a : Asset} {c : AssetMap} :
    (k, a) ∈ cacheDel k0 c ↔ (k, a) ∈ c ∧ ¬ k = k0 := by
  simp only [cacheDel, List.mem_filter, Bool.not_eq_true', decide_eq_false_iff_not,
    decide_eq_true_eq]

/-- Membership after the sweeper's iterate-and-delete fold: an entry
survives iff it was in the starting cache and no iterated entry with its
key was expired. -/
theorem sweepAux_mem (now expire : Int) :
    ∀ (l : AssetMap) (c : AssetMap) (k : String) (a : Asset),
      ((k, a) ∈ l.foldl
        (fun c kv => if kv.2.loaded + expire < now then cacheDel kv.1 c else c) c) ↔
      ((k, a) ∈ c ∧ ∀ kv ∈ l, kv.2.loaded + expire < now → ¬ kv.1 = k) := by
  intro l
  induction l with
  | nil =>
    intro c k a
    simp only [List.foldl_nil]
    constructor
    · intro h
      exact ⟨h, by intro kv hkv; cases hkv⟩
    · exact fun h => h.1
  | cons kv t ih =>
    intro c k a
    simp only [List.foldl_cons]
    rw [ih]
    by_cases h : kv.2.loaded + expire < now
    · simp only [if_pos h, mem_cacheDel]
      constructor
      · rintro ⟨⟨hc, hk⟩, ht⟩
        refine ⟨hc, ?_⟩
        intro kv2 hkv2
        rcases List.mem_cons.mp hkv2 with h2 | h2
        · subst h2
          exact fun _ he => hk he.symm
        · exact ht kv2 h2
      · rintro ⟨hc, hall⟩
        have hk := hall kv (List.mem_cons_self kv t) h
        refine ⟨⟨hc, fun he => hk (by rw [he])⟩, ?_⟩
        intro kv2 h2
        exact hall kv2 (List.mem_cons_of_mem kv h2)
    · simp only [if_neg h]
      constructor
      · rintro ⟨hc, ht⟩
        refine ⟨hc, ?_⟩
        intro kv2 hkv2
        rcases List.mem_cons.mp hkv2 with h2 | h2
        · subst h2
          exact fun he => absurd he h
        · exact ht kv2 h2
      · rintro ⟨hc, hall⟩
        refine ⟨hc, ?_⟩
        intro kv2 h2
        exact hall kv2 (List.mem_cons_of_mem kv h2)

/-- In a cache whose keys are distinct, a key determines its asset. -/
theorem cache_key_unique {c : AssetMap} (hnd : (c.map Prod.fst).Nodup)
    {k : String} {a b : Asset} (ha : (k, a) ∈ c) (hb : (k, b) ∈ c) : a = b := by
  induction c with
  | nil => cases ha
  | cons kv t ih =>
    obtain ⟨k1, x⟩ := kv
    simp only [List.map_cons, List.nodup_cons] at hnd
    rcases List.mem_cons.mp ha with ha1 | ha1 <;> rcases List.mem_cons.mp hb with hb1 | hb1
    · rw [Prod.mk.injEq] at ha1 hb1
      rw [ha1.2, hb1.2]
    · rw [Prod.mk.injEq] at ha1
      exact absurd (ha1.1 ▸ List.mem_map.mpr ⟨(k, b), hb1, rfl⟩) hnd.1
    · rw [Prod.mk.injEq] at hb1
      exact absurd (hb1.1 ▸ List.mem_map.mpr ⟨(k, a), ha1, rfl⟩) hnd.1
    · exact ih hnd.2 ha1 hb1

/-- **C1.** One tick of the background expiry sweeper
(`SetExpiryCheckInterval`'s goroutine) deletes a stored entry iff it has
expired: after a tick at time `now`, an entry survives (unchanged) exactly
when it was present and its `Loaded` timestamp is within `Expire` of
`now`; every entry whose `Loaded` is older than `now` by more than
`Expire` is absent. -/
theorem sweepTick_expiry (now expire : Int) (cache : AssetMap)
    (k : String) (a : Asset) (hnd : (cache.map Prod.fst).Nodup) :
    (k, a) ∈ sweepTick now expire cache ↔
      ((k, a) ∈ cache ∧ ¬ now - a.loaded > expire) := by
  unfold sweepTick
  rw [sweepAux_mem]
  constructor
  · rintro ⟨hc, hall⟩
    refine ⟨hc, ?_⟩
    intro hex
    have hl : a.loaded + expire < now := by omega
    exact hall (k, a) hc hl rfl
  · rintro ⟨hc, hex⟩
    refine ⟨hc, ?_⟩
    rintro ⟨k2, a2⟩ h2 hexp2 hk2
    have hk : k2 = k := hk2
    subst hk
    have ha2 : a2 = a := cache_key_unique hnd h2 hc
    have hl : a2.loaded + expire < now := hexp2
    rw [ha2] at hl
    omega

/-- Witness for C1 at a concrete cache: with `Expire = 10` at `now = 30`,
the entry loaded at 0 is swept and the entry loaded at 50 survives. -/
theorem sweepTick_expiry_witness :
    ¬ ("k1", asset1) ∈ sweepTick 30 10 cache1 ∧
      ("k2", asset2) ∈ sweepTick 30 10 cache1 := by
  constructor
  · intro h
    have := (sweepTick_expiry 30 10 cache1 "k1" asset1 (by decide)).mp h
    revert this
    decide
  · exact (sweepTick_expiry 30 10 cache1 "k2" asset2 (by decide)).mpr (by decide)

/-- **C2.** Generation is atomic with respect to the store: whenever
`Gen` returns an error (stat, open, read, gzip, or hash failure — or the
recursion budget of the directory redirection), the cache mapping is
exactly as it was before the call: nothing was inserted, removed or
modified. -/
theorem gen_error_preserves_cache (env : GenEnv) (dir : String) :
    ∀ (fuel : Nat) (name : String) (cache : AssetMap),
      ¬ (Gen env dir fuel name cache).err = none →
      (Gen env dir fuel name cache).cache = cache := by
  intro fuel
  induction fuel with
  | zero => intro name cache _; rfl
  | succ n ih =>
    intro name cache herr
    simp only [Gen] at herr ⊢
    cases hs : env.stat (PrepPath dir name) with
    | none => simp [hs]
    | some fi =>
      simp only [hs] at herr ⊢
      by_cases hd : fi.isDir = true
      · simp only [if_pos hd] at herr ⊢
        exact ih _ _ herr
      · simp only [if_neg hd] at herr ⊢
        by_cases ho : env.openErr (PrepPath dir name) = true
        · simp [if_pos ho]
        · simp only [if_neg ho] at herr ⊢
          by_cases hr : env.readErr (PrepPath dir name) = true
          · simp [if_pos hr]
          · simp only [if_neg hr] at herr ⊢
            by_cases hc : StringsContainCI Compressable (goExt (PrepPath dir name)) = true
            · simp only [if_pos hc] at herr ⊢
              cases hg : env.gzip 9 fi.content with
              | none => simp [hg]
              | some gz =>
                simp only [hg] at herr ⊢
                by_cases hh : env.hashCopyErr (PrepPath dir name) = true
                · simp [if_pos hh]
                · simp only [if_neg hh] at herr ⊢
                  exact absurd trivial herr
            · simp only [if_neg hc] at herr ⊢
              by_cases hh : env.hashCopyErr (PrepPath dir name) = true
              · simp [if_pos hh]
              · simp only [if_neg hh] at herr ⊢
                exact absurd trivial herr

/-- Witness for C2: generating a path that does not stat returns an error
and leaves the concrete cache untouched. -/
theorem gen_error_preserves_cache_witness :
    ¬ (Gen genvFS "/a" 2 "/missing.png" cache1).err = none ∧
      (Gen genvFS "/a" 2 "/missing.png" cache1).cache = cache1 := by
  constructor
  · decide
  · exact gen_error_preserves_cache genvFS "/a" 2 "/missing.png" cache1 (by decide)

/-- **C3.** For every file whose extension is a case-insensitive member
of `Compressable` (which includes `.html`), a successful `Gen` attaches a
gzip-at-level-9 compressed representation with its own quoted-digest ETag,
and `Asset.Serve` of that asset selects the compressed representation
(emitting `Content-Encoding: gzip` and the compressed ETag in the `Etag`
header) exactly when the request's `Accept-Encoding` contains the
substring `gzip`; a request without that substring receives the
uncompressed representation's ETag and no `Content-Encoding` header. -/
theorem gen_compressible_serve (env : GenEnv) (dir name : String)
    (cache : AssetMap) (fuel : Nat) (fi : FileInfo) (gz : List Nat)
    (hstat : env.stat (PrepPath dir name) = some fi)
    (hdir : fi.isDir = false)
    (hopen : env.openErr (PrepPath dir name) = false)
    (hread : env.readErr (PrepPath dir name) = false)
    (hcomp : StringsContainCI Compressable (goExt (PrepPath dir name)) = true)
    (hgzip : env.gzip 9 fi.content = some gz)
    (hhash : env.hashCopyErr (PrepPath dir name) = false) :
    ∃ a, (Gen env dir (fuel + 1) name cache).asset = some a ∧
      (Gen env dir (fuel + 1) name cache).err = none ∧
      a.compressed = true ∧
      a.contentCompressed = some gz ∧
      a.etagCompressed = "\"" ++ env.digest gz ++ "\"" ∧
      a.etag = "\"" ++ env.digest fi.content ++ "\"" ∧
      a.content = fi.content ∧
      ∀ acceptEncoding tls cc0 sts0,
        (goContains acceptEncoding "gzip" = true →
          (serveAsset a acceptEncoding tls cc0 sts0).etagHeader = a.etagCompressed ∧
          (serveAsset a acceptEncoding tls cc0 sts0).contentEncoding = some "gzip" ∧
          (serveAsset a acceptEncoding tls cc0 sts0).served = gz) ∧
        (goContains acceptEncoding "gzip" = false →
          (serveAsset a acceptEncoding tls cc0 sts0).etagHeader = a.etag ∧
          (serveAsset a acceptEncoding tls cc0 sts0).contentEncoding = none ∧
          (serveAsset a acceptEncoding tls cc0 sts0).served = a.content) := by
  simp only [Gen, hstat, hdir, hopen, hread, hcomp, hgzip, hhash]
  simp only [Bool.false_eq_true, if_false, if_true]
  refine ⟨_, rfl, trivial, ?_⟩
  have hfields :
      ∀ a : Asset, a.compressed = true → a.contentCompressed = some gz →
        a.etagCompressed = "\"" ++ env.digest gz ++ "\"" →
        a.etag = "\"" ++ env.digest fi.content ++ "\"" →
        a.content = fi.content →
        a.compressed = true ∧ a.contentCompressed = some gz ∧
        a.etagCompressed = "\"" ++ env.digest gz ++ "\"" ∧
        a.etag = "\"" ++ env.digest fi.content ++ "\"" ∧
        a.content = fi.content ∧
        ∀ acceptEncoding tls cc0 sts0,
          (goContains acceptEncoding "gzip" = true →
            (serveAsset a acceptEncoding tls cc0 sts0).etagHeader = a.etagCompressed ∧
            (serveAsset a acceptEncoding tls cc0 sts0).contentEncoding = some "gzip" ∧
            (serveAsset a acceptEncoding tls cc0 sts0).served = gz) ∧
          (goContains acceptEncoding "gzip" = false →
            (serveAsset a acceptEncoding tls cc0 sts0).etagHeader = a.etag ∧
            (serveAsset a acceptEncoding tls cc0 sts0).contentEncoding = none ∧
            (serveAsset a acceptEncoding tls cc0 sts0).served = a.content) := by
    intro a hc hcc hec het hco
    refine ⟨hc, hcc, hec, het, hco, ?_⟩
    intro acceptEncoding tls cc0 sts0
    constructor
    · intro hae
      simp [serveAsset, hc, hae, hcc]
    · intro hae
      simp [serveAsset, hc, hae]
  apply hfields <;> (split <;> first | rfl | (split <;> rfl))

/-- Witness for C3: generating `/x.css` under root `/a` in the concrete
filesystem yields a compressed asset whose serve decisions follow the
`Accept-Encoding` header. -/
theorem gen_compressible_serve_witness :
    ∃ a, (Gen genvFS "/a" 1 "/x.css" []).asset = some a ∧
      (Gen genvFS "/a" 1 "/x.css" []).err = none ∧
      a.compressed = true ∧
      a.contentCompressed = some [1, 2, 3, 0] ∧
      a.etagCompressed = "\"" ++ genvFS.digest [1, 2, 3, 0] ++ "\"" ∧
      a.etag = "\"" ++ genvFS.digest fiCss.content ++ "\"" ∧
      a.content = fiCss.content ∧
      ∀ acceptEncoding tls cc0 sts0,
        (goContains acceptEncoding "gzip" = true →
          (serveAsset a acceptEncoding tls cc0 sts0).etagHeader = a.etagCompressed ∧
          (serveAsset a acceptEncoding tls cc0 sts0).contentEncoding = some "gzip" ∧
          (serveAsset a acceptEncoding tls cc0 sts0).served = [1, 2, 3, 0]) ∧
        (goContains acceptEncoding "gzip" = false →
          (serveAsset a acceptEncoding tls cc0 sts0).etagHeader = a.etag ∧
          (serveAsset a acceptEncoding tls cc0 sts0).contentEncoding = none ∧
          (serveAsset a acceptEncoding tls cc0 sts0).served = a.content) :=
  gen_compressible_serve genvFS "/a" "/x.css" [] 0 fiCss [1, 2, 3, 0]
    (by decide) (by decide) (by decide) (by decide) (by decide) (by decide) (by decide)

/-- **C8 counterexample.** In the concrete filesystem the cache root `/a`
is a directory containing a regular `index.html` file, yet `Get "/"`
returns `found = false` and no asset, because `PrepPath` normalizes `"/"`
to `/a.html` (the extensionless-URL policy appends `.html`), which does
not stat. -/
theorem get_root_counterexample :
    genvFS.stat (goJoin "/a" "index.html") = some fiIdx ∧
    fiIdx.isDir = false ∧
    PrepPath "/a" "/" = "/a.html" ∧
    (Get genvFS "/a" 3 [] "/").found = false ∧
    (Get genvFS "/a" 3 [] "/").asset = none ∧
    (Get genvFS "/a" 3 [] "/").cache = [] := by
  decide

/-- **C8 amended.** `Get` does return the index file's asset — with
`found = true` — when invoked on the cache's `Index` key
`PrepPath dir "index.html"`, which is exactly what `ServeHTTP` / `Serve` /
`Middleware` pass for requests to `/`.  The hypotheses say the index key
is a `PrepPath` fixed point with extension `.html`, is not cached yet, and
stats to a regular file that reads, gzips and hashes cleanly. -/
theorem get_index_via_index_field (env : GenEnv) (dir : String)
    (cache : AssetMap) (fuel : Nat) (fi : FileInfo) (gz : List Nat)
    (hidem : PrepPath dir (PrepPath dir "index.html") = PrepPath dir "index.html")
    (hext : goExt (PrepPath dir "index.html") = ".html")
    (hlook : cacheLookup (PrepPath dir "index.html") cache = none)
    (hstat : env.stat (PrepPath dir "index.html") = some fi)
    (hdir : fi.isDir = false)
    (hopen : env.openErr (PrepPath dir "index.html") = false)
    (hread : env.readErr (PrepPath dir "index.html") = false)
    (hgzip : env.gzip 9 fi.content = some gz)
    (hhash : env.hashCopyErr (PrepPath dir "index.html") = false) :
    (Get env dir (fuel + 1) cache (PrepPath dir "index.html")).found = true ∧
    ∃ a, (Get env dir (fuel + 1) cache (PrepPath dir "index.html")).asset = some a ∧
      a.content = fi.content := by
  have hcomp : StringsContainCI Compressable (goExt (PrepPath dir "index.html")) = true := by
    rw [hext]
    decide
  simp only [Get, hidem, hlook]
  simp only [Gen, hidem, hstat, hdir, hopen, hread, hcomp, hgzip, hhash]
  simp only [Bool.false_eq_true, if_false, if_true]
  constructor
  · simp
  · refine ⟨_, rfl, ?_⟩
    split <;> first | rfl | (split <;> rfl)

/-- Witness for the amended C8: on the concrete filesystem rooted at
`/a`, `Get` of the index key returns the `index.html` asset. -/
theorem get_index_via_index_field_witness :
    (Get genvFS "/a" 3 [] (PrepPath "/a" "index.html")).found = true ∧
    ∃ a, (Get genvFS "/a" 3 [] (PrepPath "/a" "index.html")).asset = some a ∧
      a.content = fiIdx.content :=
  get_index_via_index_field genvFS "/a" [] 2 fiIdx (fiIdx.content ++ [0])
    (by decide) (by decide) (by decide) (by decide) (by decide) (by decide)
    (by decide) (by decide) (by decide)


/-- The deferred writer never changes the response status. -/
theorem deferredWrite_status (req : WReq) (bytes : Option (List Nat))
    (rk : RdKind) (s : RespState) :
    (deferredWrite req bytes rk s).1.status = s.status := by
  unfold deferredWrite
  simp only []
  repeat' split
  all_goals simp

/-- The range phase returns either no error or `ErrBadRange`; it never
produces `ErrPreConditionFail`. -/
theorem rangePhase_err_cases (env : WEnv) (req : WReq) (s : RespState)
    (bs : List Nat) :
    (rangePhase env req s bs).err = none ∨
      (rangePhase env req s bs).err = some ErrBadRange := by
  unfold rangePhase
  simp only []
  repeat' split
  all_goals simp

/-- The range phase leaves the status alone or sets 206 / 416. -/
theorem rangePhase_status_cases (env : WEnv) (req : WReq) (s : RespState)
    (bs : List Nat) :
    (rangePhase env req s bs).state.status = s.status ∨
      (rangePhase env req s bs).state.status = 206 ∨
      (rangePhase env req s bs).state.status = 416 := by
  unfold rangePhase
  simp only []
  repeat' split
  all_goals simp [deferredWrite_status]

/-- The range phase never returns `ErrPreConditionFail`. -/
theorem rangePhase_no_precond (env : WEnv) (req : WReq) (s : RespState)
    (bs : List Nat) :
    ¬ (rangePhase env req s bs).err = some ErrPreConditionFail := by
  intro he
  rcases rangePhase_err_cases env req s bs with h1 | h1 <;> rw [h1] at he
  · cases he
  · have h2 : ErrBadRange = ErrPreConditionFail := by injection he
    exact absurd h2 (by decide)

/-- **C4 counterexample.** The claim "every request carrying `If-Match`
answers 412 unless the header is `*` or strong-matches" is false as
stated: a GET whose `If-Match: "x"` fails against ETag `"y"` but whose
`If-None-Match: "y"` weak-matches ends with status 304 and no error — the
conditional-retrieval step runs after the precondition step and overrides
the 412. -/
theorem ifMatch_overridden_counterexample :
    ¬ ifMatchLoop (freshCtx "\"y\"" "" (some "t")).etag.toList
        (reqImInm.ifMatch.length + 1) reqImInm.ifMatch.toList = true ∧
    (writeContent wEnvC reqImInm (freshCtx "\"y\"" "" (some "t"))
        (some [1, 2, 3])).state.status = 304 ∧
    (writeContent wEnvC reqImInm (freshCtx "\"y\"" "" (some "t"))
        (some [1, 2, 3])).err = none := by
  decide

/-- **C4 amended.** For a request that carries no `If-None-Match` header
and whose `If-Modified-Since` does not parse (so step 2 cannot override
the status), `Ctx.WriteContent` returns the precondition-failed error with
status 412 exactly when: `If-Match` is present and its evaluation finds
neither `*` nor a strong match (as computed by the source's scan loop), or
`If-Match` is absent, `If-Unmodified-Since` parses, and the last-modified
time is strictly after it at one-second granularity. -/
theorem ifMatch_412_iff (env : WEnv) (req : WReq) (s0 : RespState)
    (content : Option (List Nat))
    (hw : s0.written = false) (hst : s0.status = 200)
    (hinm : req.ifNoneMatch = "")
    (hims : env.parseTime req.ifModifiedSince = none) :
    ((¬ req.ifMatch = "") →
      (((writeContent env req s0 content).err = some ErrPreConditionFail ∧
        (writeContent env req s0 content).state.status = 412) ↔
        ifMatchLoop s0.etag.toList (req.ifMatch.length + 1) req.ifMatch.toList = false)) ∧
    ((req.ifMatch = "") →
      (((writeContent env req s0 content).err = some ErrPreConditionFail ∧
        (writeContent env req s0 content).state.status = 412) ↔
        ((env.parseTime req.ifUnmodifiedSince).isSome = true ∧
          tval (env.parseTime s0.lastModified) > tval (env.parseTime req.ifUnmodifiedSince)))) := by
  constructor
  · intro him
    by_cases hm : ifMatchLoop s0.etag.toList (req.ifMatch.length + 1) req.ifMatch.toList = true
    · have hm' : ifMatchLoop s0.etag.data (req.ifMatch.length + 1) req.ifMatch.data = true := hm
      unfold writeContent condPhase
      simp [hw, hst, him, hm', hinm, hims]
      cases content with
      | none => simp
      | some bs => exact fun h => absurd h (rangePhase_no_precond env req s0 bs)
    · rw [Bool.not_eq_true] at hm
      have hm' : ifMatchLoop s0.etag.data (req.ifMatch.length + 1) req.ifMatch.data = false := hm
      unfold writeContent condPhase
      simp [hw, hst, him, hm', hinm, hims]
  · intro him
    by_cases hC : (env.parseTime req.ifUnmodifiedSince).isSome = true ∧
        tval (env.parseTime req.ifUnmodifiedSince) + 1 ≤ tval (env.parseTime s0.lastModified)
    · unfold writeContent condPhase
      simp [hw, hst, him, hinm, hims, hC]
      have h2 := hC.2
      omega
    · have hrhs : ¬ ((env.parseTime req.ifUnmodifiedSince).isSome = true ∧
          tval (env.parseTime s0.lastModified) > tval (env.parseTime req.ifUnmodifiedSince)) := by
        rintro ⟨h1, h2⟩
        exact hC ⟨h1, by omega⟩
      unfold writeContent condPhase
      simp [hw, hst, him, hinm, hims, hC, hrhs]
      cases content with
      | none => simp
      | some bs => exact fun h => absurd h (rangePhase_no_precond env req s0 bs)

/-- Witness for the amended C4 at a concrete request whose `If-Match`
strong-matches the stored ETag. -/
theorem ifMatch_412_iff_witness :
    ((¬ reqImOk.ifMatch = "") →
      (((writeContent wEnvC reqImOk (freshCtx "\"y\"" "" (some "t")) (some [1])).err =
          some ErrPreConditionFail ∧
        (writeContent wEnvC reqImOk (freshCtx "\"y\"" "" (some "t")) (some [1])).state.status = 412) ↔
        ifMatchLoop (freshCtx "\"y\"" "" (some "t")).etag.toList
          (reqImOk.ifMatch.length + 1) reqImOk.ifMatch.toList = false)) ∧
    ((reqImOk.ifMatch = "") →
      (((writeContent wEnvC reqImOk (freshCtx "\"y\"" "" (some "t")) (some [1])).err =
          some ErrPreConditionFail ∧
        (writeContent wEnvC reqImOk (freshCtx "\"y\"" "" (some "t")) (some [1])).state.status = 412) ↔
        ((wEnvC.parseTime reqImOk.ifUnmodifiedSince).isSome = true ∧
          tval (wEnvC.parseTime (freshCtx "\"y\"" "" (some "t")).lastModified) >
            tval (wEnvC.parseTime reqImOk.ifUnmodifiedSince)))) :=
  ifMatch_412_iff wEnvC reqImOk (freshCtx "\"y\"" "" (some "t")) (some [1])
    (by decide) (by decide) (by decide) (by decide)

/-- **C5 (code bug).** A GET whose `If-None-Match` weak-matches the
stored ETag does get status 304 and loses `Content-Type`, but the deferred
writer of `Ctx.WriteContent` then measures the still-attached content
(`ContentLength` was 0), re-emits a `content-length: 3` header — the
source had just deleted it — and copies the whole 3-byte body after the
304 status line.  The spec requires body, `Content-Length` and
`Content-Type` to be absent. -/
theorem inm_304_body_leak :
    (writeContent wEnvC reqInm (freshCtx "\"t\"" "LM" (some "text/html"))
        (some [10, 20, 30])).state.status = 304 ∧
    (writeContent wEnvC reqInm (freshCtx "\"t\"" "LM" (some "text/html"))
        (some [10, 20, 30])).state.contentLengthHeader = some "3" ∧
    (writeContent wEnvC reqInm (freshCtx "\"t\"" "LM" (some "text/html"))
        (some [10, 20, 30])).state.contentType = none ∧
    (writeContent wEnvC reqInm (freshCtx "\"t\"" "LM" (some "text/html"))
        (some [10, 20, 30])).body = .bytes [10, 20, 30] := by
  decide

/-- **C6 (code bug).** `Ctx.WriteContent` lacks an `else` between the
`If-Range` ETag check and the date check: after the ETag `"g"` strong-
matches, the code still parses `"g"` as a date, which fails and differs
from the last-modified time, so the `Range: bytes=0-0` header is ignored
and the full content is served with 200.  The same request without
`If-Range` is honored with 206 and `Content-Range: bytes 0-0/5`. -/
theorem ifRange_strong_match_ignored :
    eTagStrongMatch (scanETag reqIfRange.ifRange.toList).1
      (freshCtx "\"g\"" "LM" (some "t")).etag.toList = true ∧
    (writeContent wEnvC reqIfRange (freshCtx "\"g\"" "LM" (some "t"))
        (some [1, 2, 3, 4, 5])).state.status = 200 ∧
    (writeContent wEnvC reqIfRange (freshCtx "\"g\"" "LM" (some "t"))
        (some [1, 2, 3, 4, 5])).body = .bytes [1, 2, 3, 4, 5] ∧
    (writeContent wEnvC reqIfRange (freshCtx "\"g\"" "LM" (some "t"))
        (some [1, 2, 3, 4, 5])).state.contentRange = none ∧
    (writeContent wEnvC { reqIfRange with ifRange := "" }
        (freshCtx "\"g\"" "LM" (some "t")) (some [1, 2, 3, 4, 5])).state.status = 206 ∧
    (writeContent wEnvC { reqIfRange with ifRange := "" }
        (freshCtx "\"g\"" "LM" (some "t")) (some [1, 2, 3, 4, 5])).state.contentRange =
      some "bytes 0-0/5" := by
  decide

/-- A specifier satisfying `specStartsBeyond` is dropped (never an
error) by the Range parsing loop. -/
theorem specStartsBeyond_dropped (size : Int) (ra : List Char)
    (h : specStartsBeyond size ra = true) : parseSpec size ra = .dropped := by
  unfold specStartsBeyond at h
  unfold parseSpec
  cases hd : dashIndex (goTrimSpaceL ra) with
  | none => exact absurd h (by simp [hd])
  | some i =>
    simp only [hd] at h
    cases hp : goParseIntL (goTrimSpaceL (List.take i (goTrimSpaceL ra))) with
    | none => exact absurd h (by simp [hd, hp])
    | some n =>
      simp only [hp, decide_eq_true_eq] at h
      obtain ⟨hne, h0, hs⟩ := h
      have hra : ¬ goTrimSpaceL ra = [] := by
        intro he
        apply hne
        rw [he]
        simp [goTrimSpaceL]
      simp only [if_neg hra, hd, if_neg hne, hp, if_neg (show ¬ n < 0 by omega),
        if_pos (show n ≥ size by omega)]

/-- When every specifier in the loop is dropped, the parsing loop
finishes with its accumulated ranges (none added) and `noOverlap` set. -/
theorem parseRangesAux_all_dropped (size : Int) :
    ∀ (l : List (List Char)) (acc : List HttpRange) (ov : Bool),
      ¬ l = [] → (∀ ra ∈ l, parseSpec size ra = .dropped) →
      parseRangesAux size l acc ov = .ok acc true := by
  intro l
  induction l with
  | nil => intro acc ov h _; exact absurd rfl h
  | cons ra t ih =>
    intro acc ov _ hall
    have hra := hall ra (List.mem_cons_self ra t)
    unfold parseRangesAux
    rw [hra]
    cases t with
    | nil => rfl
    | cons rb t2 =>
      exact ih _ _ (by simp) (fun x hx => hall x (List.mem_cons_of_mem ra hx))

/-- `strings.Split` never yields an empty list of specifiers. -/
theorem splitOnChar_ne_nil (sep : Char) (l : List Char) :
    ¬ splitOnChar sep l = [] := by
  cases l with
  | nil => simp [splitOnChar]
  | cons c rest =>
    unfold splitOnChar
    split
    · simp
    · split <;> simp

/-- A list is an initial segment of itself extended. -/
theorem listStarts_append_self (p r : List Char) : listStarts p (p ++ r) = true := by
  induction p with
  | nil => rfl
  | cons c t ih => simp [listStarts, ih]

/-- A Range header built from `bytes=` passes the engine's check. -/
theorem goStartsWith_bytes (rest : String) :
    goStartsWith ("bytes=" ++ rest) "bytes=" = true :=
  listStarts_append_self "bytes=".toList rest.toList

/-- A Range header built from `bytes=` is non-empty. -/
theorem bytes_append_ne_empty (rest : String) : ¬ ("bytes=" ++ rest) = "" := by
  intro h
  have h2 : ("bytes=" ++ rest).data = "".data := congrArg String.data h
  have h3 : "bytes=".data ++ rest.data = [] := h2
  cases h3

/-- Dropping the `bytes=` marker of such a header leaves the specifier
text. -/
theorem drop6_bytes (rest : String) :
    ("bytes=" ++ rest).toList.drop 6 = rest.toList := rfl

/-- **C7.** For a range request on content of size `size` in which every
`bytes=start-end` specifier has an explicit start at or beyond `size`
(each such specifier is dropped rather than treated as an error), the
serving engine sets status 416 with a `Content-Range: bytes */<size>`
header, returns the range-not-satisfiable error `ErrBadRange`, and writes
no body. -/
theorem all_dropped_ranges_416 (env : WEnv) (req : WReq) (s0 : RespState)
    (bs : List Nat) (rest : String)
    (hw : s0.written = false) (hst : s0.status = 200)
    (him : req.ifMatch = "") (hinm : req.ifNoneMatch = "")
    (hius : env.parseTime req.ifUnmodifiedSince = none)
    (hims : env.parseTime req.ifModifiedSince = none)
    (hir : req.ifRange = "")
    (hrange : req.range = "bytes=" ++ rest)
    (hdrop : ∀ ra ∈ splitOnChar ',' rest.toList,
      specStartsBeyond (bs.length : Int) ra = true) :
    (writeContent env req s0 (some bs)).err = some ErrBadRange ∧
    (writeContent env req s0 (some bs)).state.status = 416 ∧
    (writeContent env req s0 (some bs)).state.contentRange =
      some ("bytes */" ++ toString (bs.length : Int)) ∧
    (writeContent env req s0 (some bs)).body = .empty ∧
    (writeContent env req s0 (some bs)).state.written = false := by
  have hgo : condPhase env req s0 (some bs) = .go s0 bs := by
    unfold condPhase
    simp [hw, hst, him, hinm, hius, hims]
  have hpr : parseRanges (bs.length : Int) rest.data = .ok [] true := by
    unfold parseRanges
    exact parseRangesAux_all_dropped (bs.length : Int) (splitOnChar ',' rest.data) [] false
      (splitOnChar_ne_nil ',' rest.data)
      (fun ra h => specStartsBeyond_dropped (bs.length : Int) ra (hdrop ra h))
  unfold writeContent
  rw [hgo]
  unfold rangePhase
  rcases hct : s0.contentType with _ | ct <;>
    simp [hrange, bytes_append_ne_empty, hir, goStartsWith_bytes, hpr, hw, hst, hct]

/-- Witness for C7: `Range: bytes=5-9, 7-` against a 3-byte body is fully
dropped and answered 416 with `Content-Range: bytes */3`. -/
theorem all_dropped_ranges_416_witness :
    (writeContent wEnvC reqDropAll (freshCtx "\"g\"" "LM" (some "t"))
        (some [1, 2, 3])).err = some ErrBadRange ∧
    (writeContent wEnvC reqDropAll (freshCtx "\"g\"" "LM" (some "t"))
        (some [1, 2, 3])).state.status = 416 ∧
    (writeContent wEnvC reqDropAll (freshCtx "\"g\"" "LM" (some "t"))
        (some [1, 2, 3])).state.contentRange =
      some ("bytes */" ++ toString (([1, 2, 3] : List Nat).length : Int)) ∧
    (writeContent wEnvC reqDropAll (freshCtx "\"g\"" "LM" (some "t"))
        (some [1, 2, 3])).body = .empty ∧
    (writeContent wEnvC reqDropAll (freshCtx "\"g\"" "LM" (some "t"))
        (some [1, 2, 3])).state.written = false :=
  all_dropped_ranges_416 wEnvC reqDropAll (freshCtx "\"g\"" "LM" (some "t"))
    [1, 2, 3] "5-9, 7-" (by decide) (by decide) (by decide) (by decide)
    (by decide) (by decide) (by decide) (by decide) (by decide)

/-- The deferred writer never changes the `content-range` header. -/
theorem deferredWrite_contentRange (req : WReq) (bytes : Option (List Nat))
    (rk : RdKind) (s : RespState) :
    (deferredWrite req bytes rk s).1.contentRange = s.contentRange := by
  unfold deferredWrite
  simp only []
  repeat' split
  all_goals simp

/-- The deferred writer always marks the response written. -/
theorem deferredWrite_written (req : WReq) (bytes : Option (List Nat))
    (rk : RdKind) (s : RespState) :
    (deferredWrite req bytes rk s).1.written = true := by
  unfold deferredWrite
  simp only []

/-- When the reader is the full content at position 0, the method is not
HEAD or CONNECT, and the state carries the content's size with no
pre-existing `content-length`/`transfer-encoding` and status 200, the
deferred writer copies exactly the whole content. -/
theorem deferredWrite_body_full (req : WReq) (bs : List Nat) (s : RespState)
    (hm : ¬ req.method = "HEAD") (hmc : ¬ req.method = "CONNECT")
    (hcl : s.contentLength = (bs.length : Int))
    (hclh : s.contentLengthHeader = none) (hte : s.transferEncoding = none)
    (hst : s.status = 200) :
    (deferredWrite req (some bs) (.content 0) s).2 = .bytes bs := by
  by_cases h0 : (bs.length : Int) = 0
  · have hbs : bs = [] := by
      cases bs with
      | nil => rfl
      | cons x t =>
        simp only [List.length_cons] at h0
        omega
    subst hbs
    by_cases h1 : req.tls = true ∧ s.sts = none <;>
      by_cases h2 : req.acceptRanges = "" <;>
        simp [deferredWrite, h1, h2, hm, hmc, hcl, hclh, hte, hst]
  · by_cases h1 : req.tls = true ∧ s.sts = none <;>
      by_cases h2 : req.acceptRanges = "" <;>
        simp [deferredWrite, h1, h2, h0, hm, hmc, hcl, hclh, hte, hst]

/-- **C10.** For a GET range request in which every specifier is valid
and in bounds (`noOverlap` is not set) but the sum of the requested range
lengths exceeds the content size, the serving engine silently discards all
ranges and serves the complete content with status 200 — no error, no
`Content-Range`, no 206/416, and no multipart body. -/
theorem oversubscribed_ranges_200 (env : WEnv) (req : WReq) (s0 : RespState)
    (bs : List Nat) (rest : String) (rs : List HttpRange)
    (hw : s0.written = false) (hst : s0.status = 200)
    (hmethod : req.method = "GET")
    (him : req.ifMatch = "") (hinm : req.ifNoneMatch = "")
    (hius : env.parseTime req.ifUnmodifiedSince = none)
    (hims : env.parseTime req.ifModifiedSince = none)
    (hir : req.ifRange = "")
    (hclh : s0.contentLengthHeader = none) (hte : s0.transferEncoding = none)
    (hcr : s0.contentRange = none)
    (hrange : req.range = "bytes=" ++ rest)
    (hpr : parseRanges (bs.length : Int) rest.data = .ok rs false)
    (hover : rs.foldl (fun n r => n + r.length) 0 > (bs.length : Int)) :
    (writeContent env req s0 (some bs)).err = none ∧
    (writeContent env req s0 (some bs)).state.status = 200 ∧
    (writeContent env req s0 (some bs)).body = .bytes bs ∧
    (writeContent env req s0 (some bs)).state.contentRange = none := by
  have hgo : condPhase env req s0 (some bs) = .go s0 bs := by
    unfold condPhase
    simp [hw, hst, him, hinm, hius, hims]
  unfold writeContent
  rw [hgo]
  unfold rangePhase
  rcases hct : s0.contentType with _ | ct <;>
    (refine ⟨?_, ?_, ?_, ?_⟩ <;>
      simp [hrange, bytes_append_ne_empty, hir, goStartsWith_bytes, hpr, hover, hct,
        deferredWrite_status, deferredWrite_contentRange, hst, hcr]) <;>
    exact deferredWrite_body_full req bs _ (by simp [hmethod]) (by simp [hmethod])
      (by simp) (by simp [hclh]) (by simp [hte]) (by simp [hst])

/-- Witness for C10: `Range: bytes=0-4,0-4` against a 5-byte body (two
valid ranges summing to 10 > 5) yields 200 with the whole body. -/
theorem oversubscribed_ranges_200_witness :
    (writeContent wEnvC reqOver (freshCtx "\"g\"" "LM" (some "t"))
        (some [1, 2, 3, 4, 5])).err = none ∧
    (writeContent wEnvC reqOver (freshCtx "\"g\"" "LM" (some "t"))
        (some [1, 2, 3, 4, 5])).state.status = 200 ∧
    (writeContent wEnvC reqOver (freshCtx "\"g\"" "LM" (some "t"))
        (some [1, 2, 3, 4, 5])).body = .bytes [1, 2, 3, 4, 5] ∧
    (writeContent wEnvC reqOver (freshCtx "\"g\"" "LM" (some "t"))
        (some [1, 2, 3, 4, 5])).state.contentRange = none :=
  oversubscribed_ranges_200 wEnvC reqOver (freshCtx "\"g\"" "LM" (some "t"))
    [1, 2, 3, 4, 5] "0-4,0-4" [⟨0, 5⟩, ⟨0, 5⟩] (by decide) (by decide) (by decide)
    (by decide) (by decide) (by decide) (by decide) (by decide) (by decide)
    (by decide) (by decide) (by decide) (by decide) (by decide)
